import Mathlib

/-!
Verification of dkron/utils.go: member classification and identifier slugs

A shallow embedding of `src/dkron/utils.go`.

Modelling conventions.

* Go strings are modelled by Lean `String` (sequences of Unicode scalar
  values); the byte-level view of Go coincides with it on valid UTF-8.
* Go `int` is the 64-bit signed integer; it is modelled by `Int`, and the
  only producer of integers here, `strconv.Atoi`, fails outside
  `[-2^63, 2^63-1]`, so no arithmetic ever wraps.
* A Go pointer result (`*serverParts`, `*version.Version`) is an `Option`:
  `none` is `nil`.
* `map[string]string` is an association list read with `List.lookup`.
* A Go panic (index out of range, nil dereference) is the result `none`.
* `serverParts.Copy` runs on an explicit memory in which the pointer fields
  of a `serverParts` are addresses of `net.TCPAddr` and `version.Version` cells, and
  `exists` on an explicit table of `os.Stat` outcomes.
* Functions of libraries outside the repository whose text is not part of
  the source tree (`net.ParseIP`, `version.NewVersion`, the Unicode tables)
  are parameters of the embedding; `strconv.Atoi`, `strings.TrimSpace`,
  `strings.ToLower`, `strings.Map` and `unicode.IsSpace` are modelled from
  their Go definitions.
-/

namespace Dkron

/-! ## Library types -/

/-- Go `net.IP`, a byte slice; `none` is the nil slice. -/
abbrev IP := Option (List Nat)

/-- Go `net.TCPAddr`. -/
structure TCPAddr where
  IP : IP
  Port : Int
  Zone : String
  deriving DecidableEq, Repr

/-- Go `version.Version` of hashicorp/go-version. -/
structure Version where
  metadata : String
  pre : String
  segments : List Int
  si : Int
  original : String
  deriving DecidableEq, Repr

/-- The Go zero value `version.Version{}`. -/
def Version.zero : Version :=
  { metadata := "", pre := "", segments := [], si := 0, original := "" }

/-- Go `serf.MemberStatus`. -/
inductive MemberStatus where
  | StatusNone
  | StatusAlive
  | StatusLeaving
  | StatusLeft
  | StatusFailed
  deriving DecidableEq, Repr

/-- Go `serf.Member`. -/
structure Member where
  Name : String
  Addr : IP
  Port : Nat
  Tags : List (String × String)
  Status : MemberStatus
  ProtocolMin : Nat
  ProtocolMax : Nat
  ProtocolCur : Nat
  DelegateMin : Nat
  DelegateMax : Nat
  DelegateCur : Nat
  deriving DecidableEq, Repr

/-- The library functions `isServer` calls whose text is outside the source
tree: `net.ParseIP` (nil is `none`) and `version.NewVersion` (an error is
`none`). -/
structure Externals where
  ParseIP : String → IP
  NewVersion : String → Option Version

/-! ## strconv.Atoi -/

/-- The value of a decimal digit byte, `none` for any other character
(`ch -= '0'; if ch > 9` in `strconv.Atoi`). -/
def digitVal (c : Char) : Option Nat :=
  if 48 ≤ c.toNat ∧ c.toNat ≤ 57 then some (c.toNat - 48) else none

/-- The digit loop of `strconv.Atoi`: `n = n*10 + int(ch)`, failing on the
first character that is not a decimal digit. -/
def parseDigits : List Char → Nat → Option Nat
  | [], n => some n
  | c :: cs, n =>
    match digitVal c with
    | none => none
    | some d => parseDigits cs (n * 10 + d)

/-- Go `strconv.Atoi` for a 64-bit `int`: an optional sign `+` or `-`, then
one or more decimal digits, the value within `[-2^63, 2^63-1]`; `none` is a
non-nil error (syntax or range). -/
def Atoi (s : String) : Option Int :=
  match s.data with
  | [] => none
  | c :: cs =>
    let body := if c = '-' ∨ c = '+' then cs else c :: cs
    if body = [] then none
    else
      match parseDigits body 0 with
      | none => none
      | some v =>
        if c = '-' then
          (if v ≤ 2 ^ 63 then some (-(v : Int)) else none)
        else
          (if v < 2 ^ 63 then some (v : Int) else none)

/-! ## serverParts and isServer -/

/-- Go `serverParts` (utils.go lines 36-49). `Addr` and `RPCAddr` are
`net.Addr` interface values, here nil or a `*net.TCPAddr`. -/
structure serverParts where
  Name : String
  ID : String
  Region : String
  Datacenter : String
  Port : Int
  Bootstrap : Bool
  Expect : Int
  RaftVersion : Int
  BuildVersion : Option Version
  Addr : Option TCPAddr
  RPCAddr : Option TCPAddr
  Status : MemberStatus
  deriving DecidableEq, Repr

/-- The Go map read `m.Tags[k]`: the value, or the empty string when the key
is absent. -/
def tag (m : Member) (k : String) : String :=
  (m.Tags.lookup k).getD ""

/-- Go `isServer` (utils.go lines 64-125). -/
def isServer (E : Externals) (m : Member) : Bool × Option serverParts :=
  if tag m "role" ≠ "dkron" then (false, none)
  else if tag m "server" ≠ "true" then (false, none)
  else
    let id := m.Name
    let region := tag m "region"
    let datacenter := tag m "dc"
    let bootstrap := (m.Tags.lookup "bootstrap").isSome
    let expectRes : Option Int :=
      match m.Tags.lookup "expect" with
      | some expectStr => Atoi expectStr
      | none => some 0
    match expectRes with
    | none => (false, none)
    | some expect =>
      let bootstrap := if expect = 1 then true else bootstrap
      let rpcIP : IP :=
        match E.ParseIP (tag m "rpc_addr") with
        | none => m.Addr
        | some b => some b
      match Atoi (tag m "port") with
      | none => (false, none)
      | some port =>
        let buildVersion : Version :=
          match E.NewVersion (tag m "version") with
          | none => Version.zero
          | some v => v
        let addr : TCPAddr := { IP := m.Addr, Port := port, Zone := "" }
        let rpcAddr : TCPAddr := { IP := rpcIP, Port := port, Zone := "" }
        (true, some
          { Name := m.Name
            ID := id
            Region := region
            Datacenter := datacenter
            Port := port
            Bootstrap := bootstrap
            Expect := expect
            RaftVersion := 0
            BuildVersion := some buildVersion
            Addr := some addr
            RPCAddr := some rpcAddr
            Status := m.Status })

/-- The outcome of reading the `expect` tag (utils.go lines 78-86): 0 when
the tag is absent, the parsed integer when it is present, `none` when it is
present and `strconv.Atoi` fails. -/
def expectOf (m : Member) : Option Int :=
  match m.Tags.lookup "expect" with
  | some expectStr => Atoi expectStr
  | none => some 0

/-- The descriptor `isServer` builds (utils.go lines 109-123) from the parsed
`expect` and `port`. -/
def partsOf (E : Externals) (m : Member) (expect port : Int) : serverParts :=
  { Name := m.Name
    ID := m.Name
    Region := tag m "region"
    Datacenter := tag m "dc"
    Port := port
    Bootstrap := if expect = 1 then true else (m.Tags.lookup "bootstrap").isSome
    Expect := expect
    RaftVersion := 0
    BuildVersion := some
      (match E.NewVersion (tag m "version") with
        | none => Version.zero
        | some v => v)
    Addr := some { IP := m.Addr, Port := port, Zone := "" }
    RPCAddr := some
      { IP := (match E.ParseIP (tag m "rpc_addr") with
          | none => m.Addr
          | some b => some b)
        Port := port
        Zone := "" }
    Status := m.Status }

/-! ## Unicode predicates and generateSlug -/

/-- The Unicode range tables of Go's `unicode` package consulted above
Latin-1 (`unicode.Letter`, `unicode.Digit`) and above ASCII (the case
ranges behind `unicode.To(unicode.LowerCase, r)`). -/
structure UnicodeTables where
  Letter : Char → Bool
  Digit : Char → Bool
  Lower : Char → Char

/-- Go `unicode.IsSpace`: the Latin-1 switch, and the `White_Space` range
table above Latin-1. -/
def IsSpace (r : Char) : Bool :=
  let n := r.toNat
  if n ≤ 0xFF then
    n = 0x09 || n = 0x0A || n = 0x0B || n = 0x0C || n = 0x0D || n = 0x20 ||
      n = 0x85 || n = 0xA0
  else
    n = 0x1680 || (0x2000 ≤ n && n ≤ 0x200A) || n = 0x2028 || n = 0x2029 ||
      n = 0x202F || n = 0x205F || n = 0x3000

/-- The letters of Latin-1 (the `pLmask` entries of Go's `properties`
array): `A-Z`, `a-z`, U+00AA, U+00B5, U+00BA, U+00C0-U+00D6, U+00D8-U+00F6,
U+00F8-U+00FF. -/
def latin1Letter (n : Nat) : Bool :=
  (0x41 ≤ n && n ≤ 0x5A) || (0x61 ≤ n && n ≤ 0x7A) || n = 0xAA || n = 0xB5 ||
    n = 0xBA || (0xC0 ≤ n && n ≤ 0xD6) || (0xD8 ≤ n && n ≤ 0xF6) ||
    (0xF8 ≤ n && n ≤ 0xFF)

/-- Go `unicode.IsLetter`. -/
def IsLetter (U : UnicodeTables) (r : Char) : Bool :=
  if r.toNat ≤ 0xFF then latin1Letter r.toNat else U.Letter r

/-- Go `unicode.IsDigit`. -/
def IsDigit (U : UnicodeTables) (r : Char) : Bool :=
  if r.toNat ≤ 0xFF then (0x30 ≤ r.toNat && r.toNat ≤ 0x39) else U.Digit r

/-- Go `unicode.ToLower`: `A-Z` shifted by `'a' - 'A'` within ASCII, the
case tables above. -/
def ToLower (U : UnicodeTables) (r : Char) : Char :=
  if r.toNat ≤ 0x7F then
    (if 0x41 ≤ r.toNat ∧ r.toNat ≤ 0x5A then Char.ofNat (r.toNat + 32) else r)
  else U.Lower r

/-- Go `strings.TrimSpace` on the characters of a string: the leading and
the trailing characters satisfying `unicode.IsSpace` are removed. -/
def TrimSpace (s : List Char) : List Char :=
  ((s.dropWhile IsSpace).reverse.dropWhile IsSpace).reverse

/-- Go `strings.ToLower` on the characters of a string: `unicode.ToLower`
applied to every character. -/
def stringsToLower (U : UnicodeTables) (s : List Char) : List Char :=
  s.map (ToLower U)

/-- Go `strings.Map`: every character is replaced by its image under
`mapping`, and dropped when the image is negative (`none`). -/
def stringsMap (mapping : Char → Option Char) (s : List Char) : List Char :=
  s.filterMap mapping

/-- The anonymous mapping function of `generateSlug` (utils.go lines 17-25);
`none` is the rune `-1`. -/
def slugRune (U : UnicodeTables) (r : Char) : Option Char :=
  if r = ' ' ∨ r = '-' then some '-'
  else if r = '_' ∨ IsLetter U r = true ∨ IsDigit U r = true then some r
  else none

/-- Go `generateSlug` (utils.go lines 16-27). -/
def generateSlug (U : UnicodeTables) (str : String) : String :=
  String.mk (stringsMap (slugRune U) (stringsToLower U (TrimSpace str.data)))

/-! ### The slug as the specification words it -/

/-- Removal of the leading whitespace of a string. -/
def specTrimLeft : List Char → List Char
  | [] => []
  | c :: cs => if IsSpace c = true then specTrimLeft cs else c :: cs

/-- Removal of the trailing whitespace of a string: a character stays when
it is not whitespace or when something stays after it. -/
def specTrimRight : List Char → List Char
  | [] => []
  | c :: cs =>
    match specTrimRight cs with
    | [] => if IsSpace c = true then [] else [c]
    | d :: ds => c :: d :: ds

/-- The per-character rule of the specification, applied in order: a space
or a hyphen becomes a hyphen; an underscore, a letter or a digit is kept;
every other character is deleted. -/
def specMapChars (U : UnicodeTables) : List Char → List Char
  | [] => []
  | c :: cs =>
    if c = ' ' ∨ c = '-' then '-' :: specMapChars U cs
    else if c = '_' ∨ IsLetter U c = true ∨ IsDigit U c = true then c :: specMapChars U cs
    else specMapChars U cs

/-- The slug as specified: trim, lowercase, then map each character. -/
def specSlug (U : UnicodeTables) (s : String) : String :=
  String.mk (specMapChars U ((specTrimRight (specTrimLeft s.data)).map (ToLower U)))

/-! ## Sample inputs -/

/-- A stand-in for the external parsers: one IP literal and one version
string are recognised. -/
def sampleExt : Externals :=
  { ParseIP := fun s => if s = "10.0.0.1" then some [10, 0, 0, 1] else none
    NewVersion := fun s =>
      if s = "1.2.3" then
        some { metadata := "", pre := "", segments := [1, 2, 3], si := 3, original := "1.2.3" }
      else none }

/-- A member carrying the given tags, alive at 127.0.0.1. -/
def memberWithTags (tags : List (String × String)) : Member :=
  { Name := "node1", Addr := some [127, 0, 0, 1], Port := 7946, Tags := tags,
    Status := MemberStatus.StatusAlive, ProtocolMin := 1, ProtocolMax := 5,
    ProtocolCur := 2, DelegateMin := 2, DelegateMax := 5, DelegateCur := 4 }

/-- A fully tagged server: `expect` is "1" and there is no `bootstrap` key. -/
def sampleServer : Member :=
  memberWithTags
    [("role", "dkron"), ("server", "true"), ("region", "global"), ("dc", "dc1"),
      ("expect", "1"), ("rpc_addr", "10.0.0.1"), ("port", "6868"), ("version", "1.2.3")]

/-- A server-tagged member without a `port` tag. -/
def noPortMember : Member :=
  memberWithTags [("role", "dkron"), ("server", "true"), ("region", "global"), ("dc", "dc1")]

/-- A server-tagged member with a valid `port` and a non-numeric `expect`. -/
def badExpectMember : Member :=
  memberWithTags
    [("role", "dkron"), ("server", "true"), ("region", "global"), ("dc", "dc1"),
      ("expect", "abc"), ("port", "6868")]

/-- A member whose role is not "dkron", every other tag being that of a
valid server. -/
def agentMember : Member :=
  memberWithTags
    [("role", "node"), ("server", "true"), ("region", "global"), ("dc", "dc1"),
      ("expect", "3"), ("rpc_addr", "10.0.0.1"), ("port", "6868"), ("version", "1.2.3")]

/-- A server with neither `rpc_addr` nor `version` nor `expect`, and a
`bootstrap` key. -/
def plainServer : Member :=
  memberWithTags
    [("role", "dkron"), ("server", "true"), ("bootstrap", "false"), ("port", "6868")]

/-- Unicode tables that know nothing above Latin-1. -/
def sampleTables : UnicodeTables :=
  { Letter := fun _ => false, Digit := fun _ => false, Lower := fun c => c }

/-- A server whose `port` tag is the decimal integer -1. -/
def negPortMember : Member :=
  memberWithTags [("role", "dkron"), ("server", "true"), ("port", "-1")]

/-- A server whose `port` tag is the decimal integer 70000. -/
def bigPortMember : Member :=
  memberWithTags [("role", "dkron"), ("server", "true"), ("port", "70000")]

/-! ## exists -/

/-- What `exists` observes of the operating system: the error `os.Stat`
returns for a path (`none` is nil; the `FileInfo` is discarded by the code)
and the classification `os.IsNotExist` of an error. -/
structure FileSystem (Err : Type) where
  Stat : String → Option Err
  IsNotExist : Err → Bool

/-- Go `exists` (utils.go lines 127-136); the result pair is the boolean and
the error, `none` for nil. -/
def pathExists {Err : Type} (fs : FileSystem Err) (path : String) : Bool × Option Err :=
  match fs.Stat path with
  | none => (true, none)
  | some err => if fs.IsNotExist err = true then (false, none) else (true, some err)

/-- A file system with one file, one unreadable directory, and nothing
else; errors are errno values (2 is ENOENT, 13 is EACCES). -/
def sampleFS : FileSystem Nat :=
  { Stat := fun path =>
      if path = "/etc/dkron.yml" then none
      else if path = "/root/secret/x" then some 13
      else some 2
    IsNotExist := fun e => e = 2 }

/-! ## int64arr -/

/-- Go `int64arr` (utils.go line 29): a slice of 64-bit signed integers. -/
abbrev int64arr := List Int

/-- The slice read `a[i]` for a Go `int` index: `none` is the
index-out-of-range panic. -/
def int64arr.index (a : int64arr) (i : Int) : Option Int :=
  if 0 ≤ i then a[i.toNat]? else none

/-- Go `int64arr.Len` (utils.go line 31). -/
def int64arr.Len (a : int64arr) : Int :=
  (a.length : Int)

/-- Go `int64arr.Swap` (utils.go line 32): both operands are read, then
`a[i]` and `a[j]` are assigned in that order; the result is the slice
afterwards, `none` on a panic. -/
def int64arr.Swap (a : int64arr) (i j : Int) : Option int64arr :=
  match int64arr.index a i, int64arr.index a j with
  | some x, some y => some ((a.set i.toNat y).set j.toNat x)
  | _, _ => none

/-- Go `int64arr.Less` (utils.go line 33); `none` on a panic. -/
def int64arr.Less (a : int64arr) (i j : Int) : Option Bool :=
  match int64arr.index a i, int64arr.index a j with
  | some x, some y => some (decide (x < y))
  | _, _ => none

/-! ## serverParts.Copy -/

/-- A pointer: nil (`none`) or the address of a cell. -/
abbrev Ptr := Option Nat

/-- Go `serverParts` as it lies in memory (utils.go lines 36-49): the
`*version.Version` and the two `net.Addr` interface values, which `isServer`
fills with a `*net.TCPAddr` (lines 109-110), are pointers; the other fields
are values. -/
structure serverPartsCell where
  Name : String
  ID : String
  Region : String
  Datacenter : String
  Port : Int
  Bootstrap : Bool
  Expect : Int
  RaftVersion : Int
  BuildVersion : Ptr
  Addr : Ptr
  RPCAddr : Ptr
  Status : MemberStatus
  deriving DecidableEq, Repr

/-- The Go zero value `serverParts{}`. -/
def serverPartsCell.zero : serverPartsCell :=
  { Name := "", ID := "", Region := "", Datacenter := "", Port := 0, Bootstrap := false,
    Expect := 0, RaftVersion := 0, BuildVersion := none, Addr := none, RPCAddr := none,
    Status := MemberStatus.StatusNone }

/-- The punctuation of Latin-1 (the `pP` entries of Go's `properties`
array). -/
def latin1Punct (n : Nat) : Bool :=
  (0x21 ≤ n && n ≤ 0x23) || (0x25 ≤ n && n ≤ 0x2A) || (0x2C ≤ n && n ≤ 0x2F) ||
    n = 0x3A || n = 0x3B || n = 0x3F || n = 0x40 || (0x5B ≤ n && n ≤ 0x5D) || n = 0x5F ||
    n = 0x7B || n = 0x7D || n = 0xA1 || n = 0xA7 || n = 0xAB || n = 0xB6 || n = 0xB7 ||
    n = 0xBB || n = 0xBF

/-- Go `unicode.IsPunct`, given the range table `unicode.Punct` consulted
above Latin-1. -/
def IsPunct (Punct : Char → Bool) (r : Char) : Bool :=
  if r.toNat ≤ 0xFF then latin1Punct r.toNat else Punct r

/-! ## Map reads -/

theorem tag_of_lookup_none (m : Member) (k : String) (h : m.Tags.lookup k = none) :
    tag m k = "" := by
  simp [tag, h]

theorem tag_of_lookup_some (m : Member) (k v : String) (h : m.Tags.lookup k = some v) :
    tag m k = v := by
  simp [tag, h]

theorem tag_eq_iff (m : Member) (k v : String) (hv : v ≠ "") :
    tag m k = v ↔ m.Tags.lookup k = some v := by
  unfold tag
  cases h : m.Tags.lookup k with
  | none =>
    simp only [Option.getD_none]
    constructor
    · intro h1
      exact absurd h1.symm hv
    · intro h1
      cases h1
  | some w => simp

theorem Atoi_empty : Atoi "" = none := by
  rfl

/-! ## The paths through isServer -/

theorem isServer_of_role_ne (E : Externals) (m : Member) (h : tag m "role" ≠ "dkron") :
    isServer E m = (false, none) := by
  unfold isServer
  rw [if_pos h]

theorem isServer_of_server_ne (E : Externals) (m : Member) (h : tag m "server" ≠ "true") :
    isServer E m = (false, none) := by
  by_cases hr : tag m "role" ≠ "dkron"
  · exact isServer_of_role_ne E m hr
  · unfold isServer
    rw [if_neg hr, if_pos h]

theorem isServer_of_expect_err (E : Externals) (m : Member) (h : expectOf m = none) :
    isServer E m = (false, none) := by
  unfold expectOf at h
  unfold isServer
  split
  · rfl
  · split
    · rfl
    · simp only [h]

theorem isServer_of_port_err (E : Externals) (m : Member) (h : Atoi (tag m "port") = none) :
    isServer E m = (false, none) := by
  unfold isServer
  split
  · rfl
  · split
    · rfl
    · simp only [h]
      split <;> rfl

theorem isServer_of_ok (E : Externals) (m : Member) (e p : Int)
    (hr : tag m "role" = "dkron") (hs : tag m "server" = "true")
    (he : expectOf m = some e) (hp : Atoi (tag m "port") = some p) :
    isServer E m = (true, some (partsOf E m e p)) := by
  unfold expectOf at he
  unfold isServer
  rw [if_neg (not_not.mpr hr), if_neg (not_not.mpr hs)]
  simp only [he, hp]
  rfl

/-- Every run of `isServer` either fails on one of its four guards and
returns `(false, nil)`, or passes all four and returns the descriptor. -/
theorem isServer_cases (E : Externals) (m : Member) :
    (isServer E m = (false, none) ∧
        (tag m "role" ≠ "dkron" ∨ tag m "server" ≠ "true" ∨ expectOf m = none ∨
          Atoi (tag m "port") = none)) ∨
      ∃ e p, tag m "role" = "dkron" ∧ tag m "server" = "true" ∧ expectOf m = some e ∧
        Atoi (tag m "port") = some p ∧ isServer E m = (true, some (partsOf E m e p)) := by
  by_cases hr : tag m "role" = "dkron"
  · by_cases hs : tag m "server" = "true"
    · cases he : expectOf m with
      | none => exact Or.inl ⟨isServer_of_expect_err E m he, Or.inr (Or.inr (Or.inl rfl))⟩
      | some e =>
        cases hp : Atoi (tag m "port") with
        | none => exact Or.inl ⟨isServer_of_port_err E m hp, Or.inr (Or.inr (Or.inr rfl))⟩
        | some p => exact Or.inr ⟨e, p, hr, hs, rfl, rfl, isServer_of_ok E m e p hr hs he hp⟩
    · exact Or.inl ⟨isServer_of_server_ne E m hs, Or.inr (Or.inl hs)⟩
  · exact Or.inl ⟨isServer_of_role_ne E m hr, Or.inl hr⟩

theorem expectOf_eq_some_iff (m : Member) (n : Int) :
    expectOf m = some n ↔
      (m.Tags.lookup "expect" = none ∧ n = 0) ∨
        ∃ e, m.Tags.lookup "expect" = some e ∧ Atoi e = some n := by
  unfold expectOf
  cases h : m.Tags.lookup "expect" with
  | none =>
    constructor
    · intro h1
      exact Or.inl ⟨rfl, (Option.some.inj h1).symm⟩
    · rintro (⟨_, h1⟩ | ⟨e, h1, _⟩)
      · rw [h1]
      · cases h1
  | some e => simp

theorem port_ok_iff (m : Member) (n : Int) :
    Atoi (tag m "port") = some n ↔
      ∃ p, m.Tags.lookup "port" = some p ∧ Atoi p = some n := by
  cases h : m.Tags.lookup "port" with
  | none =>
    rw [tag_of_lookup_none m "port" h, Atoi_empty]
    simp
  | some p =>
    rw [tag_of_lookup_some m "port" p h]
    simp

/-- The four guards of `isServer`, read on the tag map. -/
theorem guards_iff (m : Member) :
    (tag m "role" = "dkron" ∧ tag m "server" = "true" ∧ (∃ e, expectOf m = some e) ∧
        ∃ p, Atoi (tag m "port") = some p) ↔
      (m.Tags.lookup "role" = some "dkron" ∧ m.Tags.lookup "server" = some "true" ∧
        (m.Tags.lookup "expect" = none ∨
          ∃ e n, m.Tags.lookup "expect" = some e ∧ Atoi e = some n) ∧
        ∃ p n, m.Tags.lookup "port" = some p ∧ Atoi p = some n) := by
  rw [tag_eq_iff m "role" "dkron" (by decide), tag_eq_iff m "server" "true" (by decide)]
  have h1 : (∃ e, expectOf m = some e) ↔
      (m.Tags.lookup "expect" = none ∨
        ∃ e n, m.Tags.lookup "expect" = some e ∧ Atoi e = some n) := by
    constructor
    · rintro ⟨n, hn⟩
      rcases (expectOf_eq_some_iff m n).mp hn with ⟨h, _⟩ | ⟨e, h, ha⟩
      · exact Or.inl h
      · exact Or.inr ⟨e, n, h, ha⟩
    · rintro (h | ⟨e, n, h, ha⟩)
      · exact ⟨0, (expectOf_eq_some_iff m 0).mpr (Or.inl ⟨h, rfl⟩)⟩
      · exact ⟨n, (expectOf_eq_some_iff m n).mpr (Or.inr ⟨e, h, ha⟩)⟩
  have h2 : (∃ p, Atoi (tag m "port") = some p) ↔
      ∃ p n, m.Tags.lookup "port" = some p ∧ Atoi p = some n := by
    constructor
    · rintro ⟨n, hn⟩
      obtain ⟨p, h, ha⟩ := (port_ok_iff m n).mp hn
      exact ⟨p, n, h, ha⟩
    · rintro ⟨p, n, h, ha⟩
      exact ⟨n, (port_ok_iff m n).mpr ⟨p, h, ha⟩⟩
  rw [h1, h2]

/-- The result of `isServer` is `(true, descriptor)` exactly when the four
guards pass, and `(false, nil)` otherwise. -/
theorem result_iff_guards (E : Externals) (m : Member) :
    ((isServer E m).1 = true ↔
      (tag m "role" = "dkron" ∧ tag m "server" = "true" ∧ (∃ e, expectOf m = some e) ∧
        ∃ p, Atoi (tag m "port") = some p)) ∧
    ((isServer E m).2.isSome = true ↔
      (tag m "role" = "dkron" ∧ tag m "server" = "true" ∧ (∃ e, expectOf m = some e) ∧
        ∃ p, Atoi (tag m "port") = some p)) := by
  rcases isServer_cases E m with ⟨h, hg⟩ | ⟨e, p, hr, hs, he, hp, h⟩
  · have hno : ¬ (tag m "role" = "dkron" ∧ tag m "server" = "true" ∧
        (∃ e, expectOf m = some e) ∧ ∃ p, Atoi (tag m "port") = some p) := by
      rintro ⟨hr, hs, ⟨e, he⟩, ⟨p, hp⟩⟩
      rcases hg with hg | hg | hg | hg
      · exact hg hr
      · exact hg hs
      · rw [hg] at he
        cases he
      · rw [hg] at hp
        cases hp
    rw [h]
    simp only [Bool.false_eq_true, Option.isSome_none, false_iff]
    exact ⟨hno, hno⟩
  · rw [h]
    simp only [Option.isSome_some, true_iff]
    exact ⟨⟨hr, hs, ⟨e, he⟩, ⟨p, hp⟩⟩, ⟨hr, hs, ⟨e, he⟩, ⟨p, hp⟩⟩⟩

/-- A true boolean means all four guards passed and the descriptor is the
one built from the parsed `expect` and `port`. -/
theorem isServer_true_elim (E : Externals) (m : Member) (h : (isServer E m).1 = true) :
    ∃ e p, tag m "role" = "dkron" ∧ tag m "server" = "true" ∧ expectOf m = some e ∧
      Atoi (tag m "port") = some p ∧ isServer E m = (true, some (partsOf E m e p)) := by
  rcases isServer_cases E m with ⟨h0, _⟩ | hok
  · rw [h0] at h
    cases h
  · exact hok

/-! ## Classification claims -/

/-- C1: `isServer` returns true if and only if the role tag is "dkron", the
server tag is "true", the expect tag is absent or accepted by
`strconv.Atoi`, and the port tag is present and accepted by `strconv.Atoi`;
in particular a missing port, a port `Atoi` rejects, or a present expect
`Atoi` rejects each give false. -/
theorem isServer_true_iff (E : Externals) (m : Member) :
    ((isServer E m).1 = true ↔
      (m.Tags.lookup "role" = some "dkron" ∧ m.Tags.lookup "server" = some "true" ∧
        (m.Tags.lookup "expect" = none ∨
          ∃ e n, m.Tags.lookup "expect" = some e ∧ Atoi e = some n) ∧
        ∃ p n, m.Tags.lookup "port" = some p ∧ Atoi p = some n)) ∧
    (m.Tags.lookup "port" = none → (isServer E m).1 = false) ∧
    (∀ p, m.Tags.lookup "port" = some p → Atoi p = none → (isServer E m).1 = false) ∧
    (∀ e, m.Tags.lookup "expect" = some e → Atoi e = none → (isServer E m).1 = false) := by
  refine ⟨(result_iff_guards E m).1.trans (guards_iff m), ?_, ?_, ?_⟩
  · intro h
    rw [isServer_of_port_err E m (by rw [tag_of_lookup_none m "port" h, Atoi_empty])]
  · intro p h ha
    rw [isServer_of_port_err E m (by rw [tag_of_lookup_some m "port" p h, ha])]
  · intro e h ha
    rw [isServer_of_expect_err E m (by unfold expectOf; rw [h]; exact ha)]

/-- C2, as stated, fails: a member tagged role "dkron" and server "true" but
without a port tag gets no descriptor. -/
theorem descriptor_iff_role_server_refuted :
    ¬ ((isServer sampleExt noPortMember).2.isSome = true ↔
        (noPortMember.Tags.lookup "role" = some "dkron" ∧
          noPortMember.Tags.lookup "server" = some "true")) := by
  decide

/-- C2, amended: `isServer` yields a descriptor if and only if the role tag
is "dkron", the server tag is "true", the expect tag is absent or accepted
by `strconv.Atoi`, and the port tag is present and accepted by
`strconv.Atoi`; so a role other than "dkron" or a server other than "true"
yields no descriptor. -/
theorem isServer_descriptor_iff (E : Externals) (m : Member) :
    ((isServer E m).2.isSome = true ↔
      (m.Tags.lookup "role" = some "dkron" ∧ m.Tags.lookup "server" = some "true" ∧
        (m.Tags.lookup "expect" = none ∨
          ∃ e n, m.Tags.lookup "expect" = some e ∧ Atoi e = some n) ∧
        ∃ p n, m.Tags.lookup "port" = some p ∧ Atoi p = some n)) ∧
    (¬ (m.Tags.lookup "role" = some "dkron" ∧ m.Tags.lookup "server" = some "true") →
      (isServer E m).2 = none) := by
  have key := (result_iff_guards E m).2.trans (guards_iff m)
  refine ⟨key, ?_⟩
  intro hno
  cases hd : (isServer E m).2 with
  | none => rfl
  | some d =>
    have hsome : (isServer E m).2.isSome = true := by rw [hd]; rfl
    exact absurd ⟨(key.mp hsome).1, (key.mp hsome).2.1⟩ hno

/-- C3: when the role tag is missing or not "dkron", or the server tag is
missing or not "true", `isServer` returns `(false, nil)`, whatever the other
tags, the name, the address and the status are. -/
theorem isServer_non_server (E : Externals) (m : Member)
    (h : m.Tags.lookup "role" ≠ some "dkron" ∨ m.Tags.lookup "server" ≠ some "true") :
    isServer E m = (false, none) := by
  rcases h with h | h
  · exact isServer_of_role_ne E m (fun hr => h ((tag_eq_iff m "role" "dkron" (by decide)).mp hr))
  · exact isServer_of_server_ne E m
      (fun hs => h ((tag_eq_iff m "server" "true" (by decide)).mp hs))

/-- C3 at a member whose role is "node" and whose other tags are those of a
valid server. -/
theorem isServer_non_server_witness :
    agentMember.Tags.lookup "role" ≠ some "dkron" ∧
      isServer sampleExt agentMember = (false, none) :=
  ⟨by decide, isServer_non_server sampleExt agentMember (Or.inl (by decide))⟩

/-- C4, as stated, fails: with role "dkron", server "true" and port "6868"
but expect "abc", `isServer` returns no descriptor. -/
theorem valid_port_descriptor_refuted :
    ¬ (badExpectMember.Tags.lookup "role" = some "dkron" →
        badExpectMember.Tags.lookup "server" = some "true" →
        (∃ p n, badExpectMember.Tags.lookup "port" = some p ∧ Atoi p = some n) →
        ∃ d, (isServer sampleExt badExpectMember).2 = some d ∧
          d.Region = tag badExpectMember "region" ∧ d.Datacenter = tag badExpectMember "dc" ∧
          d.Port = 6868 ∧ d.Status = badExpectMember.Status) := by
  intro h
  obtain ⟨d, hd, _⟩ := h (by decide) (by decide) ⟨"6868", 6868, by decide, by decide⟩
  have hnone : (isServer sampleExt badExpectMember).2 = none := by decide
  rw [hnone] at hd
  cases hd

/-- C4, amended: when the role tag is "dkron", the server tag is "true", the
port tag parses and the expect tag is absent or parses, `isServer` returns
true with a descriptor whose Region is the region tag, Datacenter the dc
tag, Port the parsed port and Status the member's status. -/
theorem isServer_mirrors_tags (E : Externals) (m : Member) (port : String) (n : Int)
    (hr : m.Tags.lookup "role" = some "dkron") (hs : m.Tags.lookup "server" = some "true")
    (hp : m.Tags.lookup "port" = some port) (hn : Atoi port = some n)
    (he : m.Tags.lookup "expect" = none ∨
      ∃ e k, m.Tags.lookup "expect" = some e ∧ Atoi e = some k) :
    ∃ d, isServer E m = (true, some d) ∧ d.Region = tag m "region" ∧
      d.Datacenter = tag m "dc" ∧ d.Port = n ∧ d.Status = m.Status := by
  obtain ⟨_, _, ⟨e, hexp⟩, _⟩ := (guards_iff m).mpr ⟨hr, hs, he, ⟨port, n, hp, hn⟩⟩
  have hport : Atoi (tag m "port") = some n := (port_ok_iff m n).mpr ⟨port, hp, hn⟩
  exact ⟨partsOf E m e n,
    isServer_of_ok E m e n ((tag_eq_iff m "role" "dkron" (by decide)).mpr hr)
      ((tag_eq_iff m "server" "true" (by decide)).mpr hs) hexp hport,
    rfl, rfl, rfl, rfl⟩

/-- C4, amended, at the fully tagged sample server. -/
theorem isServer_mirrors_tags_witness :
    ∃ d, isServer sampleExt sampleServer = (true, some d) ∧ d.Region = "global" ∧
      d.Datacenter = "dc1" ∧ d.Port = 6868 ∧ d.Status = MemberStatus.StatusAlive :=
  isServer_mirrors_tags sampleExt sampleServer "6868" 6868 (by decide) (by decide)
    (by decide) (by decide) (Or.inr ⟨"1", 1, by decide, by decide⟩)

/-- C5: the boolean and the descriptor of `isServer` agree: the result is
either `(false, nil)` or `(true, d)` for a descriptor `d`; a false boolean
comes with no descriptor and a true boolean with one. -/
theorem isServer_bool_agrees (E : Externals) (m : Member) :
    (isServer E m = (false, none) ∨ ∃ d, isServer E m = (true, some d)) ∧
    ((isServer E m).1 = false → (isServer E m).2 = none) ∧
    ((isServer E m).1 = true → ∃ d, (isServer E m).2 = some d) := by
  rcases isServer_cases E m with ⟨h, _⟩ | ⟨e, p, _, _, _, _, h⟩
  · rw [h]
    exact ⟨Or.inl rfl, fun _ => rfl, fun hc => (by cases hc)⟩
  · rw [h]
    exact ⟨Or.inr ⟨_, rfl⟩, fun hc => (by cases hc), fun _ => ⟨_, rfl⟩⟩

/-- C6: when `isServer` returns true, the descriptor has Name and ID equal
to the member's name, Region and Datacenter equal to the region and dc tags
(empty when absent), Port the integer parsed from the port tag, Expect the
integer parsed from the expect tag or 0 when that tag is absent, Addr the
TCP address made of the member's address and Port, and Status the member's
status. -/
theorem isServer_descriptor_fields (E : Externals) (m : Member)
    (h : (isServer E m).1 = true) :
    ∃ d, isServer E m = (true, some d) ∧ d.Name = m.Name ∧ d.ID = m.Name ∧
      (∀ v, m.Tags.lookup "region" = some v → d.Region = v) ∧
      (m.Tags.lookup "region" = none → d.Region = "") ∧
      (∀ v, m.Tags.lookup "dc" = some v → d.Datacenter = v) ∧
      (m.Tags.lookup "dc" = none → d.Datacenter = "") ∧
      (∃ p, m.Tags.lookup "port" = some p ∧ Atoi p = some d.Port) ∧
      (∀ e, m.Tags.lookup "expect" = some e → Atoi e = some d.Expect) ∧
      (m.Tags.lookup "expect" = none → d.Expect = 0) ∧
      d.Addr = some { IP := m.Addr, Port := d.Port, Zone := "" } ∧
      d.Status = m.Status := by
  obtain ⟨e, p, _, _, he, hp, hres⟩ := isServer_true_elim E m h
  refine ⟨partsOf E m e p, hres, rfl, rfl, ?_, ?_, ?_, ?_, ?_, ?_, ?_, rfl, rfl⟩
  · intro v hv
    exact tag_of_lookup_some m "region" v hv
  · intro hv
    exact tag_of_lookup_none m "region" hv
  · intro v hv
    exact tag_of_lookup_some m "dc" v hv
  · intro hv
    exact tag_of_lookup_none m "dc" hv
  · exact (port_ok_iff m p).mp hp
  · intro e1 h1
    rcases (expectOf_eq_some_iff m e).mp he with ⟨h2, _⟩ | ⟨e2, h2, ha⟩
    · rw [h2] at h1
      cases h1
    · rw [h2] at h1
      cases h1
      exact ha
  · intro h1
    rcases (expectOf_eq_some_iff m e).mp he with ⟨_, h2⟩ | ⟨e2, h2, _⟩
    · exact h2
    · rw [h2] at h1
      cases h1

/-- C6 at the fully tagged sample server. -/
theorem isServer_descriptor_fields_witness :
    ∃ d, isServer sampleExt sampleServer = (true, some d) ∧ d.Name = "node1" ∧
      d.ID = "node1" ∧ d.Region = "global" ∧ d.Datacenter = "dc1" ∧
      Atoi "6868" = some d.Port ∧ Atoi "1" = some d.Expect ∧
      d.Addr = some { IP := some [127, 0, 0, 1], Port := d.Port, Zone := "" } ∧
      d.Status = MemberStatus.StatusAlive := by
  obtain ⟨d, hd, h1, h2, h3, _, h5, _, ⟨p, hp, hpa⟩, h8, _, h10, h11⟩ :=
    isServer_descriptor_fields sampleExt sampleServer (by decide)
  have hp6 : p = "6868" := by
    have h0 : sampleServer.Tags.lookup "port" = some "6868" := by decide
    rw [h0] at hp
    exact (Option.some.inj hp).symm
  rw [hp6] at hpa
  exact ⟨d, hd, h1, h2, h3 "global" (by decide), h5 "dc1" (by decide), hpa,
    h8 "1" (by decide), h10, h11⟩

/-- C7: when `isServer` returns true and the descriptor has Expect = 1, in
particular when the expect tag is "1", the descriptor has Bootstrap = true,
with or without a bootstrap tag. -/
theorem expect_one_forces_bootstrap (E : Externals) (m : Member)
    (h : (isServer E m).1 = true) :
    ∃ d, isServer E m = (true, some d) ∧ (d.Expect = 1 → d.Bootstrap = true) ∧
      (m.Tags.lookup "expect" = some "1" → d.Expect = 1 ∧ d.Bootstrap = true) := by
  obtain ⟨e, p, _, _, he, _, hres⟩ := isServer_true_elim E m h
  have hb : (partsOf E m e p).Expect = 1 → (partsOf E m e p).Bootstrap = true := by
    intro h1
    have h2 : e = 1 := h1
    simp only [partsOf, h2, if_true]
  refine ⟨partsOf E m e p, hres, hb, ?_⟩
  intro h1
  have h2 : e = 1 := by
    rcases (expectOf_eq_some_iff m e).mp he with ⟨h3, _⟩ | ⟨s, h3, ha⟩
    · rw [h3] at h1
      cases h1
    · rw [h3] at h1
      cases h1
      have h4 : Atoi "1" = some 1 := by rfl
      rw [h4] at ha
      exact (Option.some.inj ha).symm
  exact ⟨h2, hb h2⟩

/-- C7 at the sample server, whose expect tag is "1" and which has no
bootstrap tag. -/
theorem expect_one_forces_bootstrap_witness :
    sampleServer.Tags.lookup "bootstrap" = none ∧
      ∃ d, isServer sampleExt sampleServer = (true, some d) ∧ d.Expect = 1 ∧
        d.Bootstrap = true := by
  obtain ⟨d, hd, _, h2⟩ := expect_one_forces_bootstrap sampleExt sampleServer (by decide)
  exact ⟨by decide, d, hd, h2 (by decide)⟩

/-- C8: when `isServer` returns true, the host of RPCAddr is the member's
address if `net.ParseIP` returns nil on the rpc_addr tag (also for an absent
tag, on which `net.ParseIP` is given the empty string) and the parsed IP if
it does not; the port of RPCAddr is the port of Addr, which is Port. -/
theorem rpcAddr_fallback (E : Externals) (m : Member) (h : (isServer E m).1 = true) :
    ∃ d addr rpc, isServer E m = (true, some d) ∧ d.Addr = some addr ∧
      d.RPCAddr = some rpc ∧
      (m.Tags.lookup "rpc_addr" = none → E.ParseIP "" = none → rpc.IP = m.Addr) ∧
      (∀ v, m.Tags.lookup "rpc_addr" = some v → E.ParseIP v = none → rpc.IP = m.Addr) ∧
      (∀ v ip, m.Tags.lookup "rpc_addr" = some v → E.ParseIP v = some ip →
        rpc.IP = some ip) ∧
      rpc.Port = addr.Port ∧ addr.Port = d.Port := by
  obtain ⟨e, p, _, _, _, _, hres⟩ := isServer_true_elim E m h
  refine ⟨partsOf E m e p, _, _, hres, rfl, rfl, ?_, ?_, ?_, rfl, rfl⟩
  · intro h1 h2
    simp only [tag_of_lookup_none m "rpc_addr" h1, h2]
  · intro v h1 h2
    simp only [tag_of_lookup_some m "rpc_addr" v h1, h2]
  · intro v ip h1 h2
    simp only [tag_of_lookup_some m "rpc_addr" v h1, h2]

/-- C8 at a server without an rpc_addr tag: the RPC host is the advertised
address 127.0.0.1 and both ports are 6868. -/
theorem rpcAddr_fallback_witness :
    plainServer.Tags.lookup "rpc_addr" = none ∧
      ∃ d addr rpc, isServer sampleExt plainServer = (true, some d) ∧
        d.Addr = some addr ∧ d.RPCAddr = some rpc ∧ rpc.IP = some [127, 0, 0, 1] ∧
        rpc.Port = addr.Port ∧ addr.Port = d.Port := by
  obtain ⟨d, addr, rpc, hd, ha, hr, h1, _, _, h4, h5⟩ :=
    rpcAddr_fallback sampleExt plainServer (by decide)
  exact ⟨by decide, d, addr, rpc, hd, ha, hr, h1 (by decide) (by decide), h4, h5⟩

/-- C9: with role "dkron", server "true", a port that parses and an expect
that is absent or parses, `isServer` returns true whatever
`version.NewVersion` answers on the version tag; BuildVersion is the zero
value when it fails (also for an absent tag, on which it is given the empty
string) and the parsed version when it succeeds. -/
theorem version_failure_is_tolerated (E : Externals) (m : Member)
    (hr : m.Tags.lookup "role" = some "dkron") (hs : m.Tags.lookup "server" = some "true")
    (hp : ∃ p n, m.Tags.lookup "port" = some p ∧ Atoi p = some n)
    (he : m.Tags.lookup "expect" = none ∨
      ∃ e k, m.Tags.lookup "expect" = some e ∧ Atoi e = some k) :
    ∃ d, isServer E m = (true, some d) ∧
      (m.Tags.lookup "version" = none → E.NewVersion "" = none →
        d.BuildVersion = some Version.zero) ∧
      (∀ s, m.Tags.lookup "version" = some s → E.NewVersion s = none →
        d.BuildVersion = some Version.zero) ∧
      (∀ s v, m.Tags.lookup "version" = some s → E.NewVersion s = some v →
        d.BuildVersion = some v) := by
  obtain ⟨hr1, hs1, ⟨e, hexp⟩, ⟨n, hport⟩⟩ := (guards_iff m).mpr ⟨hr, hs, he, hp⟩
  refine ⟨partsOf E m e n, isServer_of_ok E m e n hr1 hs1 hexp hport, ?_, ?_, ?_⟩
  · intro h1 h2
    simp only [partsOf, tag_of_lookup_none m "version" h1, h2]
  · intro s h1 h2
    simp only [partsOf, tag_of_lookup_some m "version" s h1, h2]
  · intro s v h1 h2
    simp only [partsOf, tag_of_lookup_some m "version" s h1, h2]

/-- C9 at a server without a version tag: it is classified as a server and
BuildVersion is the zero value. -/
theorem version_failure_is_tolerated_witness :
    plainServer.Tags.lookup "version" = none ∧
      ∃ d, isServer sampleExt plainServer = (true, some d) ∧
        d.BuildVersion = some Version.zero := by
  obtain ⟨d, hd, h1, _, _⟩ :=
    version_failure_is_tolerated sampleExt plainServer (by decide) (by decide)
      ⟨"6868", 6868, by decide, by decide⟩ (Or.inl (by decide))
  exact ⟨by decide, d, hd, h1 (by decide) (by decide)⟩

/-! ## generateSlug -/

theorem specTrimLeft_eq (l : List Char) : specTrimLeft l = l.dropWhile IsSpace := by
  induction l with
  | nil => rfl
  | cons c cs ih =>
    by_cases hc : IsSpace c = true
    · simp only [specTrimLeft, List.dropWhile_cons, hc, if_true, ih]
    · simp only [specTrimLeft, List.dropWhile_cons, hc, if_false, Bool.false_eq_true]

theorem specTrimRight_eq (l : List Char) :
    specTrimRight l = (l.reverse.dropWhile IsSpace).reverse := by
  induction l with
  | nil => rfl
  | cons c cs ih =>
    rw [List.reverse_cons, List.dropWhile_append]
    cases ht : specTrimRight cs with
    | nil =>
      have hd : cs.reverse.dropWhile IsSpace = [] := by
        have h1 := ih.symm.trans ht
        exact List.reverse_eq_nil_iff.mp h1
      simp only [specTrimRight, ht, hd, List.isEmpty_nil, if_true]
      by_cases hc : IsSpace c = true
      · simp [List.dropWhile_cons, hc]
      · simp [List.dropWhile_cons, hc]
    | cons d ds =>
      have hd : (cs.reverse.dropWhile IsSpace).isEmpty = false := by
        have h1 := ih.symm.trans ht
        cases hx : cs.reverse.dropWhile IsSpace with
        | nil =>
          rw [hx] at h1
          cases h1
        | cons x xs => rfl
      have h2 : (cs.reverse.dropWhile IsSpace).reverse = d :: ds := ih.symm.trans ht
      simp only [specTrimRight, ht, hd, Bool.false_eq_true, if_false, List.reverse_append,
        List.reverse_cons, List.reverse_nil, List.nil_append, List.singleton_append, h2]

theorem specMapChars_eq (U : UnicodeTables) (l : List Char) :
    specMapChars U l = stringsMap (slugRune U) l := by
  induction l with
  | nil => rfl
  | cons c cs ih =>
    unfold stringsMap at ih
    by_cases h1 : c = ' ' ∨ c = '-'
    · simp only [specMapChars, stringsMap, List.filterMap_cons, slugRune, h1, if_true, ih]
    · by_cases h2 : c = '_' ∨ IsLetter U c = true ∨ IsDigit U c = true
      · simp only [specMapChars, stringsMap, List.filterMap_cons, slugRune, h1, h2,
          if_true, if_false, ih]
      · simp only [specMapChars, stringsMap, List.filterMap_cons, slugRune, h1, h2,
          if_false, ih]

/-- C10: `generateSlug` is the specified normalisation: trim the leading and
trailing whitespace, lowercase, then map the characters in order (space or
hyphen to hyphen; underscore, letter or digit kept; anything else deleted).
`generateSlug("My cool object")` is "my-cool-object" and
`generateSlug("A__B  C!!")` is "a__b--c". -/
theorem generateSlug_eq_specSlug (U : UnicodeTables) (s : String) :
    generateSlug U s = specSlug U s ∧
      generateSlug U "My cool object" = "my-cool-object" ∧
      generateSlug U "A__B  C!!" = "a__b--c" := by
  refine ⟨?_, rfl, rfl⟩
  unfold generateSlug specSlug stringsToLower TrimSpace
  rw [specMapChars_eq, specTrimRight_eq, specTrimLeft_eq]

/-! ## exists -/

/-- C11: `exists` returns `(true, nil)` when the stat succeeds, `(false,
nil)` when it fails with a not-found error, and `(true, err)` with the stat
error when it fails otherwise; it never returns false with a non-nil
error. -/
theorem pathExists_outcomes {Err : Type} (fs : FileSystem Err) (path : String) :
    (fs.Stat path = none → pathExists fs path = (true, none)) ∧
    (∀ err, fs.Stat path = some err → fs.IsNotExist err = true →
      pathExists fs path = (false, none)) ∧
    (∀ err, fs.Stat path = some err → fs.IsNotExist err = false →
      pathExists fs path = (true, some err)) ∧
    ¬ ((pathExists fs path).1 = false ∧ (pathExists fs path).2 ≠ none) := by
  unfold pathExists
  cases hs : fs.Stat path with
  | none =>
    refine ⟨fun _ => rfl, fun err h => (by cases h), fun err h => (by cases h), ?_⟩
    rintro ⟨h, _⟩
    cases h
  | some e =>
    refine ⟨fun h => (by cases h), ?_, ?_, ?_⟩
    · intro err h hn
      cases h
      simp only [hn, if_true]
    · intro err h hn
      cases h
      simp only [hn, Bool.false_eq_true, if_false]
    · by_cases hn : fs.IsNotExist e = true
      · simp only [hn, if_true]
        rintro ⟨_, h⟩
        exact h rfl
      · simp only [hn, if_false]
        rintro ⟨h, _⟩
        cases h

/-- C11 at a file system with one file and one unreadable directory: the
three outcomes. -/
theorem pathExists_outcomes_witness :
    pathExists sampleFS "/etc/dkron.yml" = (true, none) ∧
      pathExists sampleFS "/var/lib/none" = (false, none) ∧
      pathExists sampleFS "/root/secret/x" = (true, some 13) :=
  ⟨(pathExists_outcomes sampleFS "/etc/dkron.yml").1 (by decide),
    (pathExists_outcomes sampleFS "/var/lib/none").2.1 2 (by decide) (by decide),
    (pathExists_outcomes sampleFS "/root/secret/x").2.2.1 13 (by decide) (by decide)⟩

/-! ## Bootstrap and port -/

/-- C12: when `isServer` returns true, Bootstrap is true if and only if the
tags contain the key bootstrap, whatever its value, or Expect is 1; with the
key absent and Expect not 1, Bootstrap is false. -/
theorem bootstrap_iff_key_or_expect (E : Externals) (m : Member)
    (h : (isServer E m).1 = true) :
    ∃ d, isServer E m = (true, some d) ∧
      (d.Bootstrap = true ↔ ((∃ v, m.Tags.lookup "bootstrap" = some v) ∨ d.Expect = 1)) ∧
      (m.Tags.lookup "bootstrap" = none → d.Expect ≠ 1 → d.Bootstrap = false) := by
  obtain ⟨e, p, _, _, _, _, hres⟩ := isServer_true_elim E m h
  refine ⟨partsOf E m e p, hres, ?_, ?_⟩
  · show (if e = 1 then true else (m.Tags.lookup "bootstrap").isSome) = true ↔
      ((∃ v, m.Tags.lookup "bootstrap" = some v) ∨ e = 1)
    by_cases he : e = 1
    · simp only [he, if_true, or_true]
    · simp only [he, if_false, or_false]
      exact Option.isSome_iff_exists
  · intro hb he
    show (if e = 1 then true else (m.Tags.lookup "bootstrap").isSome) = false
    have he1 : ¬ e = 1 := he
    simp only [he1, if_false, hb, Option.isSome_none]

/-- C12 at a server whose bootstrap tag is "false" and which has no expect
tag: Expect is 0 and Bootstrap is true. -/
theorem bootstrap_iff_key_or_expect_witness :
    plainServer.Tags.lookup "bootstrap" = some "false" ∧
      ∃ d, isServer sampleExt plainServer = (true, some d) ∧ d.Expect = 0 ∧
        d.Bootstrap = true := by
  obtain ⟨d, hd, hiff, _⟩ := bootstrap_iff_key_or_expect sampleExt plainServer (by decide)
  refine ⟨by decide, d, hd, ?_, hiff.mpr (Or.inl ⟨"false", by decide⟩)⟩
  have h0 : isServer sampleExt plainServer =
      (true, some (partsOf sampleExt plainServer 0 6868)) := by decide
  rw [h0] at hd
  cases hd
  rfl

/-- C19: `isServer` does not range-check the port: with role "dkron",
server "true" and port tag "-1", respectively "70000", it returns true and
the descriptor's Port, the port of Addr and the port of RPCAddr are -1,
respectively 70000, both outside 0..65535. -/
theorem port_not_range_checked (E : Externals) :
    (negPortMember.Tags.lookup "role" = some "dkron" ∧
      negPortMember.Tags.lookup "server" = some "true" ∧
      negPortMember.Tags.lookup "port" = some "-1" ∧ Atoi "-1" = some (-1) ∧
      ∃ d addr rpc, isServer E negPortMember = (true, some d) ∧ d.Port = -1 ∧
        d.Addr = some addr ∧ addr.Port = -1 ∧ d.RPCAddr = some rpc ∧ rpc.Port = -1) ∧
    (bigPortMember.Tags.lookup "role" = some "dkron" ∧
      bigPortMember.Tags.lookup "server" = some "true" ∧
      bigPortMember.Tags.lookup "port" = some "70000" ∧ Atoi "70000" = some 70000 ∧
      ∃ d addr rpc, isServer E bigPortMember = (true, some d) ∧ d.Port = 70000 ∧
        d.Addr = some addr ∧ addr.Port = 70000 ∧ d.RPCAddr = some rpc ∧
        rpc.Port = 70000) := by
  refine ⟨⟨by decide, by decide, by decide, by decide, ?_⟩,
    ⟨by decide, by decide, by decide, by decide, ?_⟩⟩
  · exact ⟨partsOf E negPortMember 0 (-1), _, _,
      isServer_of_ok E negPortMember 0 (-1) (by decide) (by decide) (by decide) (by decide),
      rfl, rfl, rfl, rfl, rfl⟩
  · exact ⟨partsOf E bigPortMember 0 70000, _, _,
      isServer_of_ok E bigPortMember 0 70000 (by decide) (by decide) (by decide) (by decide),
      rfl, rfl, rfl, rfl, rfl⟩

/-! ## int64arr -/

theorem index_natCast (a : int64arr) (n : Nat) : int64arr.index a (n : Int) = a[n]? := by
  unfold int64arr.index
  rw [if_pos (Int.ofNat_nonneg n), Int.toNat_ofNat]

theorem index_eq_some_iff (a : int64arr) (i x : Int) :
    int64arr.index a i = some x ↔ 0 ≤ i ∧ a[i.toNat]? = some x := by
  unfold int64arr.index
  by_cases h : 0 ≤ i
  · simp only [h, if_true, true_and]
  · simp only [h, if_false, false_and]
    exact ⟨fun hc => (by cases hc), fun hc => hc.elim⟩

theorem index_of_inRange (a : int64arr) (i : Int) (h0 : 0 ≤ i) (h1 : i < int64arr.Len a) :
    ∃ x, int64arr.index a i = some x := by
  have hlt : i.toNat < a.length := by
    unfold int64arr.Len at h1
    omega
  exact ⟨a[i.toNat], (index_eq_some_iff a i _).mpr ⟨h0, List.getElem?_eq_getElem hlt⟩⟩

theorem inRange_of_index (a : int64arr) (i x : Int) (h : int64arr.index a i = some x) :
    0 ≤ i ∧ i < int64arr.Len a ∧ i.toNat < a.length := by
  obtain ⟨h0, h1⟩ := (index_eq_some_iff a i x).mp h
  obtain ⟨hlt, _⟩ := List.getElem?_eq_some.mp h1
  unfold int64arr.Len
  exact ⟨h0, by omega, hlt⟩

theorem Less_of_index (a : int64arr) (i j x y : Int) (hi : int64arr.index a i = some x)
    (hj : int64arr.index a j = some y) :
    int64arr.Less a i j = some (decide (x < y)) := by
  unfold int64arr.Less
  rw [hi, hj]

/-- Adjacent order gives order at any distance. -/
theorem ascending_of_adjacent (a : List Int)
    (hadj : ∀ (n : Nat) (x y : Int), a[n]? = some x → a[n + 1]? = some y → x ≤ y) :
    ∀ (d n : Nat) (x y : Int), a[n]? = some x → a[n + d]? = some y → x ≤ y := by
  intro d
  induction d with
  | zero =>
    intro n x y hx hy
    rw [Nat.add_zero, hx] at hy
    exact le_of_eq (Option.some.inj hy)
  | succ d ih =>
    intro n x y hx hy
    obtain ⟨hlt, _⟩ := List.getElem?_eq_some.mp hy
    have hz : a[n + d]? = some (a[n + d]) := List.getElem?_eq_getElem (by omega)
    exact le_trans (ih n x _ hx hz) (hadj (n + d) _ y hz hy)

/-- C14: for in-range indices, `Less(i, j)` holds exactly when `a[i] <
a[j]`; it is irreflexive and transitive; exactly one of `Less(i, j)`,
`Less(j, i)` and `a[i] = a[j]` holds; and a slice in which `Less(k+1, k)` is
false for every adjacent pair is in ascending order. -/
theorem int64arr_Less_strict_order (a : int64arr) :
    (∀ i j, 0 ≤ i → i < int64arr.Len a → 0 ≤ j → j < int64arr.Len a →
      ∃ x y, int64arr.index a i = some x ∧ int64arr.index a j = some y ∧
        (int64arr.Less a i j = some true ↔ x < y) ∧
        (int64arr.Less a i j = some false ↔ ¬ x < y)) ∧
    (∀ i, 0 ≤ i → i < int64arr.Len a → int64arr.Less a i i = some false) ∧
    (∀ i j k, 0 ≤ i → i < int64arr.Len a → 0 ≤ j → j < int64arr.Len a →
      0 ≤ k → k < int64arr.Len a →
      int64arr.Less a i j = some true → int64arr.Less a j k = some true →
      int64arr.Less a i k = some true) ∧
    (∀ i j, 0 ≤ i → i < int64arr.Len a → 0 ≤ j → j < int64arr.Len a →
      (int64arr.Less a i j = some true ∧ int64arr.Less a j i ≠ some true ∧
          int64arr.index a i ≠ int64arr.index a j) ∨
        (int64arr.Less a i j ≠ some true ∧ int64arr.Less a j i = some true ∧
          int64arr.index a i ≠ int64arr.index a j) ∨
        (int64arr.Less a i j ≠ some true ∧ int64arr.Less a j i ≠ some true ∧
          int64arr.index a i = int64arr.index a j)) ∧
    ((∀ k, 0 ≤ k → k + 1 < int64arr.Len a → int64arr.Less a (k + 1) k = some false) →
      ∀ i j x y, i ≤ j → int64arr.index a i = some x → int64arr.index a j = some y →
        x ≤ y) := by
  refine ⟨?_, ?_, ?_, ?_, ?_⟩
  · intro i j hi0 hi hj0 hj
    obtain ⟨x, hx⟩ := index_of_inRange a i hi0 hi
    obtain ⟨y, hy⟩ := index_of_inRange a j hj0 hj
    refine ⟨x, y, hx, hy, ?_, ?_⟩
    · rw [Less_of_index a i j x y hx hy]
      simp
    · rw [Less_of_index a i j x y hx hy]
      simp
  · intro i hi0 hi
    obtain ⟨x, hx⟩ := index_of_inRange a i hi0 hi
    rw [Less_of_index a i i x x hx hx]
    simp
  · intro i j k hi0 hi hj0 hj hk0 hk hij hjk
    obtain ⟨x, hx⟩ := index_of_inRange a i hi0 hi
    obtain ⟨y, hy⟩ := index_of_inRange a j hj0 hj
    obtain ⟨z, hz⟩ := index_of_inRange a k hk0 hk
    rw [Less_of_index a i j x y hx hy] at hij
    rw [Less_of_index a j k y z hy hz] at hjk
    rw [Less_of_index a i k x z hx hz]
    simp only [Option.some.injEq, decide_eq_true_eq] at hij hjk ⊢
    exact lt_trans hij hjk
  · intro i j hi0 hi hj0 hj
    obtain ⟨x, hx⟩ := index_of_inRange a i hi0 hi
    obtain ⟨y, hy⟩ := index_of_inRange a j hj0 hj
    rw [Less_of_index a i j x y hx hy, Less_of_index a j i y x hy hx, hx, hy]
    simp only [Option.some.injEq, decide_eq_true_eq, ne_eq]
    rcases lt_trichotomy x y with h | h | h
    · exact Or.inl ⟨h, not_lt.mpr (le_of_lt h), ne_of_lt h⟩
    · exact Or.inr (Or.inr ⟨by rw [h]; exact lt_irrefl y, by rw [h]; exact lt_irrefl y, h⟩)
    · exact Or.inr (Or.inl ⟨not_lt.mpr (le_of_lt h), h, ne_of_gt h⟩)
  · intro hadj i j x y hij hx hy
    obtain ⟨hi0, _, _⟩ := inRange_of_index a i x hx
    obtain ⟨hj0, _, _⟩ := inRange_of_index a j y hy
    have hadjN : ∀ (n : Nat) (u v : Int), a[n]? = some u → a[n + 1]? = some v → u ≤ v := by
      intro n u v hu hv
      obtain ⟨hlt, _⟩ := List.getElem?_eq_some.mp hv
      have hu1 : int64arr.index a (n : Int) = some u := by rw [index_natCast]; exact hu
      have hv1 : int64arr.index a ((n : Int) + 1) = some v := by
        have hc : ((n : Int) + 1) = ((n + 1 : Nat) : Int) := by push_cast; rfl
        rw [hc, index_natCast]
        exact hv
      have hk := hadj (n : Int) (Int.ofNat_nonneg n) (by unfold int64arr.Len; omega)
      rw [Less_of_index a _ _ v u hv1 hu1] at hk
      simp only [Option.some.injEq, decide_eq_false_iff_not, not_lt] at hk
      exact hk
    have hxN : a[i.toNat]? = some x := ((index_eq_some_iff a i x).mp hx).2
    have hyN : a[i.toNat + (j.toNat - i.toNat)]? = some y := by
      have he : i.toNat + (j.toNat - i.toNat) = j.toNat := by omega
      rw [he]
      exact ((index_eq_some_iff a j y).mp hy).2
    exact ascending_of_adjacent a hadjN (j.toNat - i.toNat) i.toNat x y hxN hyN

/-- C14 at the slice -3, 0, 0, 7: no adjacent pair is out of order, so the
first element is at most the last; `Less(0, 3)` holds and `Less(1, 2)` does
not. -/
theorem int64arr_Less_strict_order_witness :
    int64arr.Less [-3, 0, 0, 7] 0 3 = some true ∧
      int64arr.Less [-3, 0, 0, 7] 1 2 = some false ∧
      ∀ x y, int64arr.index [-3, 0, 0, 7] 0 = some x →
        int64arr.index [-3, 0, 0, 7] 3 = some y → x ≤ y := by
  have h := int64arr_Less_strict_order [-3, 0, 0, 7]
  refine ⟨by decide, by decide, fun x y hx hy => h.2.2.2.2 ?_ 0 3 x y (by decide) hx hy⟩
  intro k hk0 hk1
  have hk2 : k < 3 := by
    have : int64arr.Len [-3, 0, 0, 7] = 4 := rfl
    omega
  interval_cases k <;> decide

/-- The cells of a slice after `a[n] = y; a[m] = x`, where `x` and `y` are
the old `a[n]` and `a[m]`. -/
theorem getElem?_exchange (a : List Int) (n m : Nat) (x y : Int) (hx : a[n]? = some x)
    (hy : a[m]? = some y) (k : Nat) :
    ((a.set n y).set m x)[k]? =
      if k = m then some x else if k = n then some y else a[k]? := by
  obtain ⟨hn, _⟩ := List.getElem?_eq_some.mp hx
  obtain ⟨hm, _⟩ := List.getElem?_eq_some.mp hy
  rw [List.getElem?_set, List.getElem?_set]
  by_cases h1 : k = m
  · subst h1
    simp [hm]
  · by_cases h2 : k = n
    · subst h2
      have h3 : ¬ m = k := fun h => h1 h.symm
      simp [h1, h3, hn]
    · have h3 : ¬ m = k := fun h => h1 h.symm
      have h4 : ¬ n = k := fun h => h2 h.symm
      simp [h1, h2, h3, h4]

/-- Exchanging two cells keeps the number of occurrences of every value. -/
theorem count_exchange (a : List Int) (n m : Nat) (x y : Int) (hx : a[n]? = some x)
    (hy : a[m]? = some y) (c : Int) :
    ((a.set n y).set m x).count c = a.count c := by
  obtain ⟨hn, hxv⟩ := List.getElem?_eq_some.mp hx
  obtain ⟨hm, hyv⟩ := List.getElem?_eq_some.mp hy
  have hm1 : m < (a.set n y).length := by rw [List.length_set]; exact hm
  have hmid : (a.set n y)[m] = y := by
    rw [List.getElem_set]
    by_cases h : n = m
    · simp [h]
    · simp [h, hyv]
  rw [List.count_set x c (a.set n y) m hm1, List.count_set y c a n hn, hmid, hxv]
  have hpos : (if (x == c) = true then 1 else 0) ≤ a.count c := by
    by_cases h : x = c
    · have hmem : c ∈ a := by
        rw [← h, ← hxv]
        exact List.getElem_mem hn
      have := List.count_pos_iff.mpr hmem
      simp only [h, beq_self_eq_true, if_true]
      omega
    · simp [h]
  omega

/-- C15: for in-range indices, `Swap(i, j)` puts the old `a[j]` at `i` and
the old `a[i]` at `j`, leaves every other index and `Len()` unchanged, gives
a permutation of `a`, and applied twice restores `a`. -/
theorem int64arr_Swap_exchanges (a : int64arr) (i j : Int) (hi0 : 0 ≤ i)
    (hi : i < int64arr.Len a) (hj0 : 0 ≤ j) (hj : j < int64arr.Len a) :
    ∃ b, int64arr.Swap a i j = some b ∧
      int64arr.index b i = int64arr.index a j ∧
      int64arr.index b j = int64arr.index a i ∧
      (∀ k, k ≠ i → k ≠ j → int64arr.index b k = int64arr.index a k) ∧
      int64arr.Len b = int64arr.Len a ∧ List.Perm b a ∧
      int64arr.Swap b i j = some a := by
  obtain ⟨x, hx⟩ := index_of_inRange a i hi0 hi
  obtain ⟨y, hy⟩ := index_of_inRange a j hj0 hj
  have hxN : a[i.toNat]? = some x := ((index_eq_some_iff a i x).mp hx).2
  have hyN : a[j.toNat]? = some y := ((index_eq_some_iff a j y).mp hy).2
  have hsame : i.toNat = j.toNat → x = y := by
    intro h
    rw [h, hyN] at hxN
    exact (Option.some.inj hxN).symm
  have hbi : int64arr.index ((a.set i.toNat y).set j.toNat x) i = some y := by
    rw [index_eq_some_iff, getElem?_exchange a _ _ x y hxN hyN]
    refine ⟨hi0, ?_⟩
    by_cases h : i.toNat = j.toNat
    · simp only [h, if_true, hsame h]
    · simp only [h, if_false, if_true]
  have hbj : int64arr.index ((a.set i.toNat y).set j.toNat x) j = some x := by
    rw [index_eq_some_iff, getElem?_exchange a _ _ x y hxN hyN]
    exact ⟨hj0, by simp only [if_true]⟩
  refine ⟨(a.set i.toNat y).set j.toNat x, ?_, ?_, ?_, ?_, ?_, ?_, ?_⟩
  · unfold int64arr.Swap
    rw [hx, hy]
  · rw [hbi, hy]
  · rw [hbj, hx]
  · intro k hki hkj
    unfold int64arr.index
    by_cases hk : 0 ≤ k
    · simp only [hk, if_true]
      rw [getElem?_exchange a _ _ x y hxN hyN]
      have h1 : ¬ k.toNat = j.toNat := by omega
      have h2 : ¬ k.toNat = i.toNat := by omega
      simp only [h1, h2, if_false]
    · simp only [hk, if_false]
  · unfold int64arr.Len
    rw [List.length_set, List.length_set]
  · exact List.perm_iff_count.mpr (fun c => count_exchange a _ _ x y hxN hyN c)
  · unfold int64arr.Swap
    rw [hbi, hbj]
    have hbiN := ((index_eq_some_iff _ i y).mp hbi).2
    have hbjN := ((index_eq_some_iff _ j x).mp hbj).2
    have hext : (((a.set i.toNat y).set j.toNat x).set i.toNat x).set j.toNat y = a := by
      apply List.ext_getElem?
      intro k
      rw [getElem?_exchange _ _ _ y x hbiN hbjN, getElem?_exchange a _ _ x y hxN hyN]
      by_cases h1 : k = j.toNat
      · simp only [h1, if_true]
        exact hyN.symm
      · by_cases h2 : k = i.toNat
        · simp only [h1, h2, if_false, if_true]
          rw [← h2] at hxN
          rw [h2] at h1
          simp only [h1, if_false]
          rw [← h2]
          exact hxN.symm
        · simp only [h1, h2, if_false]
    exact congrArg some hext

/-- C15 at the slice 5, 3, 9 with indices 0 and 2. -/
theorem int64arr_Swap_exchanges_witness :
    ∃ b, int64arr.Swap [5, 3, 9] 0 2 = some b ∧ b = [9, 3, 5] ∧ List.Perm b [5, 3, 9] ∧
      int64arr.Swap b 0 2 = some [5, 3, 9] := by
  obtain ⟨b, hb, _, _, _, _, hperm, hback⟩ :=
    int64arr_Swap_exchanges [5, 3, 9] 0 2 (by decide) (by decide) (by decide) (by decide)
  have h0 : int64arr.Swap [5, 3, 9] 0 2 = some [9, 3, 5] := by decide
  rw [h0] at hb
  exact ⟨b, h0.trans hb, (Option.some.inj hb).symm, hperm, hback⟩

/-! ## serverParts.Copy -/

theorem char_eq_of_toNat {c d : Char} (h : c.toNat = d.toNat) : c = d := by
  have h1 := congrArg Char.ofNat h
  rw [Char.ofNat_toNat, Char.ofNat_toNat] at h1
  exact h1

theorem char_eq_iff_toNat (c d : Char) : c = d ↔ c.toNat = d.toNat :=
  ⟨fun h => by rw [h], char_eq_of_toNat⟩

theorem toNat_ofNat_of_lt (n : Nat) (h : n < 0xD800) : (Char.ofNat n).toNat = n := by
  have hv : n.isValidChar := Or.inl h
  unfold Char.ofNat
  rw [dif_pos hv]
  rfl

/-- Within ASCII `unicode.ToLower` adds 32 to `A-Z` and fixes the rest. -/
theorem ToLower_toNat_ascii (U : UnicodeTables) (c : Char) (h : c.toNat ≤ 0x7F) :
    (ToLower U c).toNat =
      if 0x41 ≤ c.toNat ∧ c.toNat ≤ 0x5A then c.toNat + 32 else c.toNat := by
  unfold ToLower
  rw [if_pos h]
  by_cases hu : 0x41 ≤ c.toNat ∧ c.toNat ≤ 0x5A
  · rw [if_pos hu, if_pos hu]
    exact toNat_ofNat_of_lt _ (by omega)
  · rw [if_neg hu, if_neg hu]

theorem ToLower_of_not_ascii (U : UnicodeTables) (c : Char) (h : 0x7F < c.toNat) :
    ToLower U c = U.Lower c := by
  unfold ToLower
  rw [if_neg (by omega)]

theorem slugRune_eq_some (U : UnicodeTables) (c d : Char) :
    slugRune U c = some d ↔
      ((c = ' ' ∨ c = '-') ∧ d = '-') ∨
        (¬ (c = ' ' ∨ c = '-') ∧ (c = '_' ∨ IsLetter U c = true ∨ IsDigit U c = true) ∧
          d = c) := by
  unfold slugRune
  by_cases h1 : c = ' ' ∨ c = '-'
  · simp only [h1, if_true, Option.some.injEq, true_and, not_true_eq_false, false_and,
      or_false]
    exact eq_comm
  · by_cases h2 : c = '_' ∨ IsLetter U c = true ∨ IsDigit U c = true
    · simp only [h1, h2, if_false, if_true, Option.some.injEq, false_and, not_false_eq_true,
        true_and, false_or]
      exact eq_comm
    · simp only [h1, h2, if_false, false_and, and_false, or_self]
      exact ⟨fun h => (by cases h), fun h => h.elim⟩

theorem slugRune_eq_hyphen_iff (U : UnicodeTables) (c : Char) :
    slugRune U c = some '-' ↔ (c = ' ' ∨ c = '-') := by
  rw [slugRune_eq_some]
  constructor
  · rintro (⟨h, _⟩ | ⟨h1, _, h3⟩)
    · exact h
    · exact absurd (Or.inr h3.symm) h1
  · intro h
    exact Or.inl ⟨h, rfl⟩

/-- Under tables whose lower-case map sends nothing beyond ASCII to a space
or a hyphen, lowering a character gives a space or a hyphen only from a space
or a hyphen. -/
theorem ToLower_separator_iff (U : UnicodeTables)
    (hU : ∀ c : Char, 0x7F < c.toNat → U.Lower c ≠ ' ' ∧ U.Lower c ≠ '-') (c : Char) :
    (ToLower U c = ' ' ↔ c = ' ') ∧ (ToLower U c = '-' ↔ c = '-') := by
  by_cases h : c.toNat ≤ 0x7F
  · have ht := ToLower_toNat_ascii U c h
    have e1 : (' ' : Char).toNat = 32 := rfl
    have e2 : ('-' : Char).toNat = 45 := rfl
    rw [char_eq_iff_toNat, char_eq_iff_toNat c, char_eq_iff_toNat (ToLower U c),
      char_eq_iff_toNat c, e1, e2, ht]
    constructor <;> split <;> omega
  · have hlt : 0x7F < c.toNat := by omega
    rw [ToLower_of_not_ascii U c hlt]
    have e1 : (' ' : Char).toNat = 32 := rfl
    have e2 : ('-' : Char).toNat = 45 := rfl
    refine ⟨⟨fun h1 => absurd h1 (hU c hlt).1, fun h1 => ?_⟩,
      ⟨fun h1 => absurd h1 (hU c hlt).2, fun h1 => ?_⟩⟩
    · rw [h1, e1] at hlt
      omega
    · rw [h1, e2] at hlt
      omega

theorem countP_separator (l : List Char) :
    l.countP (fun c => decide (c = ' ' ∨ c = '-')) = l.count ' ' + l.count '-' := by
  induction l with
  | nil => rfl
  | cons c cs ih =>
    rw [List.countP_cons, List.count_cons, List.count_cons, ih]
    by_cases h1 : c = ' '
    · subst h1
      simp
      omega
    · by_cases h2 : c = '-'
      · subst h2
        simp
        omega
      · simp [h1, h2]

/-- C13: `generateSlug` does no run-length collapsing. The length of the
slug is the number of characters of the trimmed, lowercased input that are
a space, a hyphen, an underscore, a letter or a digit; the number of hyphens
in the slug is the number of spaces plus the number of hyphens of the
trimmed input; every underscore of the trimmed input gives an underscore of
the slug. The lower-case table is assumed to send no character beyond ASCII
to a space or a hyphen. -/
theorem generateSlug_no_collapsing (U : UnicodeTables) (s : String)
    (hU : ∀ c : Char, 0x7F < c.toNat → U.Lower c ≠ ' ' ∧ U.Lower c ≠ '-') :
    (generateSlug U s).length =
        (stringsToLower U (TrimSpace s.data)).countP
          (fun c => decide (c = ' ' ∨ c = '-' ∨ c = '_' ∨ IsLetter U c = true ∨
            IsDigit U c = true)) ∧
      (generateSlug U s).data.count '-' =
        (TrimSpace s.data).count ' ' + (TrimSpace s.data).count '-' ∧
      (TrimSpace s.data).count '_' ≤ (generateSlug U s).data.count '_' := by
  refine ⟨?_, ?_, ?_⟩
  · show (stringsMap (slugRune U) (stringsToLower U (TrimSpace s.data))).length = _
    unfold stringsMap
    rw [List.length_filterMap_eq_countP]
    apply List.countP_congr
    intro c _
    unfold slugRune
    by_cases h1 : c = ' ' ∨ c = '-'
    · rcases h1 with h1 | h1 <;> simp [h1]
    · by_cases h2 : c = '_' ∨ IsLetter U c = true ∨ IsDigit U c = true
      · have h3 : c = ' ' ∨ c = '-' ∨ c = '_' ∨ IsLetter U c = true ∨ IsDigit U c = true := by
          tauto
        rw [if_neg h1, if_pos h2]
        simp only [Option.isSome_some, true_iff, decide_eq_true_eq]
        exact h3
      · have h3 : ¬ (c = ' ' ∨ c = '-' ∨ c = '_' ∨ IsLetter U c = true ∨
            IsDigit U c = true) := by
          tauto
        rw [if_neg h1, if_neg h2]
        simp only [Option.isSome_none, Bool.false_eq_true, false_iff, decide_eq_true_eq]
        exact h3
  · show (stringsMap (slugRune U) (stringsToLower U (TrimSpace s.data))).count '-' = _
    unfold stringsMap stringsToLower
    rw [List.count_filterMap, List.countP_map, ← countP_separator]
    apply List.countP_congr
    intro c _
    simp only [Function.comp_apply, beq_iff_eq, decide_eq_true_eq]
    rw [slugRune_eq_hyphen_iff, (ToLower_separator_iff U hU c).1,
      (ToLower_separator_iff U hU c).2]
  · show _ ≤ (stringsMap (slugRune U) (stringsToLower U (TrimSpace s.data))).count '_'
    unfold stringsMap stringsToLower
    rw [List.count_filterMap, List.countP_map, List.count_eq_countP]
    apply List.countP_mono_left
    intro c _ hc
    have hc1 : c = '_' := by simpa using hc
    subst hc1
    rfl

/-- C13 at "a  -_b" under tables that know nothing above Latin-1: six
characters in, six out, three of them hyphens. -/
theorem generateSlug_no_collapsing_witness :
    generateSlug sampleTables "a  -_b" = "a---_b" ∧
      (generateSlug sampleTables "a  -_b").length = 6 ∧
      (generateSlug sampleTables "a  -_b").data.count '-' =
        (TrimSpace "a  -_b".data).count ' ' + (TrimSpace "a  -_b".data).count '-' := by
  have h := generateSlug_no_collapsing sampleTables "a  -_b"
    (fun c hc => ⟨fun h1 => by
        have h2 : c = ' ' := h1
        rw [h2] at hc
        exact absurd hc (by decide),
      fun h1 => by
        have h2 : c = '-' := h1
        rw [h2] at hc
        exact absurd hc (by decide)⟩)
  exact ⟨by decide, by decide, h.2.1⟩

/-- Where a character of the slug comes from: it is a hyphen, or it is the
lower-case image of a character of the trimmed input and is an underscore, a
letter or a digit. -/
theorem mem_generateSlug (U : UnicodeTables) (s : String) (c : Char)
    (hc : c ∈ (generateSlug U s).data) :
    c = '-' ∨
      ∃ c1, c1 ∈ TrimSpace s.data ∧ c = ToLower U c1 ∧ c ≠ ' ' ∧ c ≠ '-' ∧
        (c = '_' ∨ IsLetter U c = true ∨ IsDigit U c = true) := by
  have hc1 : c ∈ (stringsToLower U (TrimSpace s.data)).filterMap (slugRune U) := hc
  obtain ⟨a, ha, hsl⟩ := List.mem_filterMap.mp hc1
  obtain ⟨c1, hc1m, hlow⟩ := List.mem_map.mp ha
  rcases (slugRune_eq_some U a c).mp hsl with ⟨_, h⟩ | ⟨h1, h2, h3⟩
  · exact Or.inl h
  · subst h3
    refine Or.inr ⟨c1, hc1m, hlow.symm, fun h => h1 (Or.inl h), fun h => h1 (Or.inr h), h2⟩

/-- An underscore, a letter or a digit is not white space, provided the
tables above Latin-1 classify no white space as a letter or a digit. -/
theorem not_space_of_kept (U : UnicodeTables)
    (hsp : ∀ c : Char, 0xFF < c.toNat → IsSpace c = true →
      U.Letter c = false ∧ U.Digit c = false)
    (c : Char) (hk : c = '_' ∨ IsLetter U c = true ∨ IsDigit U c = true) :
    IsSpace c = false := by
  by_cases h : c.toNat ≤ 0xFF
  · have hk1 : c.toNat = 95 ∨ latin1Letter c.toNat = true ∨
        (0x30 ≤ c.toNat ∧ c.toNat ≤ 0x39) := by
      rcases hk with hk | hk | hk
      · exact Or.inl (by rw [hk]; rfl)
      · unfold IsLetter at hk
        rw [if_pos h] at hk
        exact Or.inr (Or.inl hk)
      · unfold IsDigit at hk
        rw [if_pos h] at hk
        simp only [Bool.and_eq_true, decide_eq_true_eq] at hk
        exact Or.inr (Or.inr hk)
    unfold latin1Letter at hk1
    simp only [Bool.or_eq_true, Bool.and_eq_true, decide_eq_true_eq] at hk1
    unfold IsSpace
    simp only [h, if_true, Bool.or_eq_false_iff, decide_eq_false_iff_not]
    omega
  · have hlt : 0xFF < c.toNat := by omega
    cases hs : IsSpace c with
    | false => rfl
    | true =>
      obtain ⟨hl, hd⟩ := hsp c hlt hs
      rcases hk with hk | hk | hk
      · rw [hk] at hlt
        exact absurd hlt (by decide)
      · unfold IsLetter at hk
        rw [if_neg h, hl] at hk
        cases hk
      · unfold IsDigit at hk
        rw [if_neg h, hd] at hk
        cases hk

/-- An underscore, a letter or a digit other than a hyphen is not
punctuation, except for the underscore itself, provided the tables above
Latin-1 classify no punctuation as a letter or a digit. -/
theorem not_punct_of_kept (U : UnicodeTables) (Punct : Char → Bool)
    (hpu : ∀ c : Char, 0xFF < c.toNat → Punct c = true →
      U.Letter c = false ∧ U.Digit c = false)
    (c : Char) (hk : c = '_' ∨ IsLetter U c = true ∨ IsDigit U c = true)
    (hp : IsPunct Punct c = true) : c = '_' := by
  by_cases h : c.toNat ≤ 0xFF
  · have hk1 : c.toNat = 95 ∨ latin1Letter c.toNat = true ∨
        (0x30 ≤ c.toNat ∧ c.toNat ≤ 0x39) := by
      rcases hk with hk | hk | hk
      · exact Or.inl (by rw [hk]; rfl)
      · unfold IsLetter at hk
        rw [if_pos h] at hk
        exact Or.inr (Or.inl hk)
      · unfold IsDigit at hk
        rw [if_pos h] at hk
        simp only [Bool.and_eq_true, decide_eq_true_eq] at hk
        exact Or.inr (Or.inr hk)
    unfold latin1Letter at hk1
    simp only [Bool.or_eq_true, Bool.and_eq_true, decide_eq_true_eq] at hk1
    unfold IsPunct latin1Punct at hp
    simp only [h, if_true, Bool.or_eq_true, Bool.and_eq_true, decide_eq_true_eq] at hp
    apply char_eq_of_toNat
    have e : ('_' : Char).toNat = 95 := rfl
    rw [e]
    omega
  · have hlt : 0xFF < c.toNat := by omega
    unfold IsPunct at hp
    rw [if_neg h] at hp
    obtain ⟨hl, hd⟩ := hpu c hlt hp
    rcases hk with hk | hk | hk
    · exact hk
    · unfold IsLetter at hk
      rw [if_neg h, hl] at hk
      cases hk
    · unfold IsDigit at hk
      rw [if_neg h, hd] at hk
      cases hk

/-- The lower-case image of a character is not an ASCII capital, provided
the table sends nothing beyond ASCII to one. -/
theorem ToLower_not_upper (U : UnicodeTables)
    (hlow : ∀ c : Char, 0x7F < c.toNat →
      ¬ (0x41 ≤ (U.Lower c).toNat ∧ (U.Lower c).toNat ≤ 0x5A))
    (c : Char) : ¬ (0x41 ≤ (ToLower U c).toNat ∧ (ToLower U c).toNat ≤ 0x5A) := by
  by_cases h : c.toNat ≤ 0x7F
  · rw [ToLower_toNat_ascii U c h]
    split <;> omega
  · rw [ToLower_of_not_ascii U c (by omega)]
    exact hlow c (by omega)

/-- C18: every character of a slug is a hyphen, an underscore, a letter or a
digit; none is white space, none is punctuation other than the hyphen and
the underscore, none is an ASCII capital. The tables above Latin-1 are
assumed to classify no white space and no punctuation as a letter or a
digit, and the lower-case table to send nothing beyond ASCII to `A-Z`. -/
theorem generateSlug_charset (U : UnicodeTables) (Punct : Char → Bool) (s : String)
    (hlow : ∀ c : Char, 0x7F < c.toNat →
      ¬ (0x41 ≤ (U.Lower c).toNat ∧ (U.Lower c).toNat ≤ 0x5A))
    (hsp : ∀ c : Char, 0xFF < c.toNat → IsSpace c = true →
      U.Letter c = false ∧ U.Digit c = false)
    (hpu : ∀ c : Char, 0xFF < c.toNat → Punct c = true →
      U.Letter c = false ∧ U.Digit c = false) :
    ∀ c ∈ (generateSlug U s).data,
      (c = '-' ∨ c = '_' ∨ IsLetter U c = true ∨ IsDigit U c = true) ∧
        IsSpace c = false ∧
        (IsPunct Punct c = true → c = '-' ∨ c = '_') ∧
        ¬ (0x41 ≤ c.toNat ∧ c.toNat ≤ 0x5A) := by
  intro c hc
  rcases mem_generateSlug U s c hc with h | ⟨c1, _, hc1, _, _, hk⟩
  · subst h
    exact ⟨Or.inl rfl, rfl, fun _ => Or.inl rfl, by decide⟩
  · refine ⟨Or.inr hk, not_space_of_kept U hsp c hk,
      fun hp => Or.inr (not_punct_of_kept U Punct hpu c hk hp), ?_⟩
    rw [hc1]
    exact ToLower_not_upper U hlow c1

/-- C18 at "A__B  C!!" under tables that know nothing above Latin-1: the
slug is "a__b--c" and each of its characters is as claimed. -/
theorem generateSlug_charset_witness :
    generateSlug sampleTables "A__B  C!!" = "a__b--c" ∧
      ∀ c ∈ (generateSlug sampleTables "A__B  C!!").data,
        (c = '-' ∨ c = '_' ∨ IsLetter sampleTables c = true ∨
          IsDigit sampleTables c = true) ∧
        IsSpace c = false ∧
        (IsPunct (fun _ => false) c = true → c = '-' ∨ c = '_') ∧
        ¬ (0x41 ≤ c.toNat ∧ c.toNat ≤ 0x5A) :=
  ⟨by decide,
    generateSlug_charset sampleTables (fun _ => false) "A__B  C!!"
      (fun c hc => by
        have e : sampleTables.Lower c = c := rfl
        rw [e]
        omega)
      (fun _ _ _ => ⟨rfl, rfl⟩) (fun _ _ _ => ⟨rfl, rfl⟩)⟩

/-! ## Idempotence of generateSlug -/

/-- Lowering twice is lowering once, provided the lower-case table lands on
characters that `unicode.ToLower` fixes. -/
theorem ToLower_idem (U : UnicodeTables)
    (hlow : ∀ c : Char, 0x7F < c.toNat → ToLower U (U.Lower c) = U.Lower c) (c : Char) :
    ToLower U (ToLower U c) = ToLower U c := by
  by_cases h : c.toNat ≤ 0x7F
  · have h1 := ToLower_toNat_ascii U c h
    have h2 : (ToLower U c).toNat ≤ 0x7F := by
      rw [h1]
      split <;> omega
    have h3 := ToLower_toNat_ascii U (ToLower U c) h2
    apply char_eq_of_toNat
    rw [h3]
    have h4 : ¬ (0x41 ≤ (ToLower U c).toNat ∧ (ToLower U c).toNat ≤ 0x5A) := by
      rw [h1]
      split <;> omega
    rw [if_neg h4]
  · rw [ToLower_of_not_ascii U c (by omega)]
    exact hlow c (by omega)

theorem dropWhile_of_none (p : Char → Bool) (l : List Char) (h : ∀ c ∈ l, p c = false) :
    l.dropWhile p = l := by
  cases l with
  | nil => rfl
  | cons c cs =>
    rw [List.dropWhile_cons, h c (List.mem_cons_self c cs)]
    rfl

theorem TrimSpace_of_no_space (l : List Char) (h : ∀ c ∈ l, IsSpace c = false) :
    TrimSpace l = l := by
  unfold TrimSpace
  rw [dropWhile_of_none IsSpace l h,
    dropWhile_of_none IsSpace l.reverse (fun c hc => h c (List.mem_reverse.mp hc)),
    List.reverse_reverse]

theorem filterMap_of_fixed (f : Char → Option Char) (l : List Char)
    (h : ∀ c ∈ l, f c = some c) : l.filterMap f = l := by
  induction l with
  | nil => rfl
  | cons c cs ih =>
    rw [List.filterMap_cons, h c (List.mem_cons_self c cs)]
    simp only
    rw [ih (fun d hd => h d (List.mem_cons_of_mem c hd))]

theorem map_of_fixed (f : Char → Char) (l : List Char) (h : ∀ c ∈ l, f c = c) :
    l.map f = l := by
  induction l with
  | nil => rfl
  | cons c cs ih =>
    rw [List.map_cons, h c (List.mem_cons_self c cs),
      ih (fun d hd => h d (List.mem_cons_of_mem c hd))]

/-- C17: `generateSlug` is idempotent. The lower-case table is assumed to
land on characters that `unicode.ToLower` fixes, and the tables above
Latin-1 to classify no white space as a letter or a digit. -/
theorem generateSlug_idempotent (U : UnicodeTables) (s : String)
    (hlow : ∀ c : Char, 0x7F < c.toNat → ToLower U (U.Lower c) = U.Lower c)
    (hsp : ∀ c : Char, 0xFF < c.toNat → IsSpace c = true →
      U.Letter c = false ∧ U.Digit c = false) :
    generateSlug U (generateSlug U s) = generateSlug U s := by
  have hspace : ∀ c ∈ (generateSlug U s).data, IsSpace c = false := by
    intro c hc
    rcases mem_generateSlug U s c hc with h | ⟨_, _, _, _, _, hk⟩
    · rw [h]
      rfl
    · exact not_space_of_kept U hsp c hk
  have hfix : ∀ c ∈ (generateSlug U s).data, ToLower U c = c := by
    intro c hc
    rcases mem_generateSlug U s c hc with h | ⟨c1, _, hc1, _, _, _⟩
    · rw [h]
      rfl
    · rw [hc1]
      exact ToLower_idem U hlow c1
  have hkeep : ∀ c ∈ (generateSlug U s).data, slugRune U c = some c := by
    intro c hc
    rcases mem_generateSlug U s c hc with h | ⟨_, _, _, h1, h2, hk⟩
    · rw [h]
      exact (slugRune_eq_some U '-' '-').mpr (Or.inl ⟨Or.inr rfl, rfl⟩)
    · refine (slugRune_eq_some U c c).mpr (Or.inr ⟨?_, hk, rfl⟩)
      rintro (h | h)
      · exact h1 h
      · exact h2 h
  have hdata : stringsMap (slugRune U)
      (stringsToLower U (TrimSpace (generateSlug U s).data)) = (generateSlug U s).data := by
    unfold stringsMap stringsToLower
    rw [TrimSpace_of_no_space _ hspace, map_of_fixed _ _ hfix, filterMap_of_fixed _ _ hkeep]
  show String.mk (stringsMap (slugRune U)
    (stringsToLower U (TrimSpace (generateSlug U s).data))) = generateSlug U s
  rw [hdata]

/-- C17 at "  My cool object " under tables that know nothing above
Latin-1. -/
theorem generateSlug_idempotent_witness :
    generateSlug sampleTables "  My cool object " = "my-cool-object" ∧
      generateSlug sampleTables (generateSlug sampleTables "  My cool object ") =
        generateSlug sampleTables "  My cool object " :=
  ⟨by decide,
    generateSlug_idempotent sampleTables "  My cool object "
      (fun c hc => by
        have e : sampleTables.Lower c = c := rfl
        rw [e]
        exact ToLower_of_not_ascii sampleTables c hc)
      (fun _ _ _ => ⟨rfl, rfl⟩)⟩

end Dkron
